import Mathlib

/-!
Verification of the htseq-clip annotation flattening core (`clip/gffCLIP.py`).

This file gives a shallow embedding of the algorithmically relevant parts of
the repository:

* `GeneInfo` with `add_feature`, `gene`, `checkGeneFeature`, `features`
  (class `GeneInfo` in `gffCLIP.py`);
* the sorted-mode and unsorted-mode annotation processors
  (`gffCLIP._process_sorted`, `gffCLIP._process_unsorted`);
* the summary trailer writer (`gffCLIP._write_summary`);
* the sliding-window tiler (`gffCLIP.slidingWindow`).

External collaborator classes that are part of the repository but whose
sources are not available here (`Gene`, `GeneLengthSummary`) are modelled
from the specification, and are marked as such in their doc comments.
Machine integers are modelled as `Nat` (BED coordinates are non-negative and
no arithmetic in the embedded code can overflow or go negative).

The Python `while` loop of `slidingWindow` is embedded with an explicit fuel
parameter; the top-level entry point supplies fuel `end + 1`, which is enough
for every terminating run of the Python loop (the loop advances `pos2` by
`windowStep ≥ 1` per iteration while `pos2 < end`).  All loop lemmas below are
proved for every fuel value, so no fuel-adequacy argument is ever needed.
-/

/-- A genomic feature as read from a GFF/GTF stream: the fields of an
`HTSeq.GenomicFeature` that `gffCLIP.py` actually inspects
(`f.type`, `f.iv.start`, `f.iv.end`, `f.iv.strand`, `f.attr`). -/
structure Feature where
  type : String
  start : Nat
  stop : Nat
  strand : String
  attr : List (String × String)
  deriving DecidableEq, Inhabited, Repr

/-- Default gene-defining feature types (`geneDefinitions` in `gffCLIP.py`). -/
def defaultGeneDefinitions : List String := ["tRNA", "gene", "tRNAscan", "tRNA_gene"]

/-- Association-list lookup, mirroring Python `dict` access: the list is
built with distinct keys, so first-match lookup agrees with `dict`. -/
def assocFind {α : Type} (m : List (String × α)) (k : String) : Option α :=
  match m with
  | [] => none
  | (k', v) :: rest => if k' == k then some v else assocFind rest k

/-- The `_typeMap` update performed by `GeneInfo.add_feature`: append the new
index to the entry of key `t` if one exists, otherwise create a fresh entry
at the end (Python dicts preserve insertion order and append new keys). -/
def typeMapAdd (m : List (String × List Nat)) (t : String) (i : Nat) :
    List (String × List Nat) :=
  match m with
  | [] => [(t, [i])]
  | (k, v) :: rest =>
      if k == t then (k, v ++ [i]) :: rest else (k, v) :: typeMapAdd rest t i

/-- `GeneInfo`: per-gene-id container of all features seen for that id
(class `GeneInfo` in `gffCLIP.py`).  `featList` is `_featList`, `typeMap` is
`_typeMap` (feature type → list of indices into `featList`), and
`geneDefinitions` is `_geneDefinitions`. -/
structure GeneInfo where
  id : String
  featList : List Feature
  geneDefinitions : List String
  typeMap : List (String × List Nat)
  deriving DecidableEq, Repr

/-- `GeneInfo.__init__(id)` with the default gene definitions. -/
def GeneInfo.init (id : String) : GeneInfo :=
  ⟨id, [], defaultGeneDefinitions, []⟩

/-- `GeneInfo.add_feature(f)`: append `f` to `_featList` and record its index
under its type in `_typeMap`. -/
def GeneInfo.add_feature (g : GeneInfo) (f : Feature) : GeneInfo :=
  { g with
    featList := g.featList ++ [f]
    typeMap := typeMapAdd g.typeMap f.type g.featList.length }

/-- `GeneInfo._checkGeneFeature(geneInd)`: build the sets of start positions,
end positions and strands of the features at the given indices and return
true when each set is a singleton (the Python code builds three `set`s and
checks `len(...) == 1`; `List.dedup` length equals the set size). -/
def GeneInfo.checkGeneFeature (g : GeneInfo) (geneInd : List Nat) : Bool :=
  let start_pos := (geneInd.map (fun i => (g.featList.getD i default).start)).dedup
  let end_pos := (geneInd.map (fun i => (g.featList.getD i default).stop)).dedup
  let strand := (geneInd.map (fun i => (g.featList.getD i default).strand)).dedup
  start_pos.length == 1 && end_pos.length == 1 && strand.length == 1

/-- `GeneInfo.gene` property: resolve the canonical gene feature or `none`.
`geneDef` is the intersection of the types present (`_typeMap` keys, distinct
by construction) with `_geneDefinitions`; out-of-range list accesses use a
default value but are unreachable for any `GeneInfo` built by `add_feature`. -/
def GeneInfo.gene (g : GeneInfo) : Option Feature :=
  let geneDef := (g.typeMap.map Prod.fst).filter (fun t => g.geneDefinitions.contains t)
  if geneDef.length == 0 then none
  else if geneDef.length > 1 then none
  else
    let geneInd := (assocFind g.typeMap (geneDef.headD "")).getD []
    if geneInd.length > 1 then
      if g.checkGeneFeature geneInd then some (g.featList.getD (geneInd.headD 0) default)
      else none
    else some (g.featList.getD (geneInd.headD 0) default)

/-- `GeneInfo.features` property: return all stored features. -/
def GeneInfo.features (g : GeneInfo) : List Feature := g.featList

/-- Building a `GeneInfo` by adding a list of features in order. -/
def geneInfoOfList (id : String) (fs : List Feature) : GeneInfo :=
  fs.foldl GeneInfo.add_feature (GeneInfo.init id)

/-- The strictly increasing list of positions in `fs` holding a feature of
type `t` (used to state the `_typeMap` invariant). -/
def typeIndices (fs : List Feature) (t : String) : List Nat :=
  (List.range fs.length).filter (fun i => (fs.getD i default).type == t)

/-- The canonical-gene resolution contract as worded by the specification
(§4.1 AmbiguityResolver), to be compared with `GeneInfo.gene`: intersect the
types present with the gene-defining set; empty or ambiguous intersection is
unresolved; a unique gene-defining type with one occurrence resolves to that
feature; with several occurrences it resolves to the first occurrence exactly
when all occurrences share the same (start, end, strand) triple. -/
def geneResolveSpec (fs : List Feature) : Option Feature :=
  let present := defaultGeneDefinitions.filter (fun t => fs.any (fun f => f.type == t))
  match present with
  | [t] =>
      let occ := fs.filter (fun f => f.type == t)
      let first := occ.headD default
      if occ.length > 1 then
        if occ.all (fun f =>
            f.start == first.start && f.stop == first.stop && f.strand == first.strand)
        then some first
        else none
      else some first
  | _ => none

/-- A parsed 6-column BED data line, as `slidingWindow` sees it after
`line.split('\t')`: `name` holds the tokens of field 4 split on `'@'`
(`line[3].split('@')`), coordinates are the integers of fields 2 and 3. -/
structure BedLine where
  chrom : String
  chromStart : Nat
  chromEnd : Nat
  name : List String
  score : String
  strand : String
  deriving DecidableEq, Repr

/-- A window row emitted by `slidingWindow`.  `serial` is the window counter
value `windowCount` used for this row (it is also the last `@`-token of
`nameField` and the `W`-padded part of the UID). -/
structure WinRow where
  chrom : String
  wstart : Nat
  wend : Nat
  nameField : String
  serial : Nat
  score : String
  strand : String
  deriving DecidableEq, Inhabited, Repr

/-- Python `'{:0>w}'.format(s)`: left-pad `s` with `'0'` to width `w`. -/
def zfill (w : Nat) (s : String) : String :=
  String.mk (List.replicate (w - s.length) '0') ++ s

/-- Split a character list at every occurrence of `c` (helper for
`splitOnChar`; structurally recursive so that concrete runs evaluate). -/
def splitCharAux (c : Char) : List Char → List (List Char)
  | [] => [[]]
  | ch :: rest =>
      let r := splitCharAux c rest
      if ch = c then [] :: r
      else
        match r with
        | [] => [[ch]]
        | a :: tl => (ch :: a) :: tl

/-- Python `s.split(c)` for a single-character separator `c` (the only form
`slidingWindow` uses: `split('@')` and `split('/')`). -/
def splitOnChar (c : Char) (s : String) : List String :=
  (splitCharAux c s.data).map String.mk

/-- Build one output row of `slidingWindow`: the UID is
`name[0] ++ ":" ++ name[3] ++ featureNumber (4 digits) ++ "W" ++ counter
(5 digits)` and the name field re-joins `name[:5] + [UID, str(windowCount)]`
with `'@'`. -/
def mkWinRow (ln : BedLine) (featureNumber : String) (p1 p2 cnt : Nat) : WinRow :=
  let name0 := ln.name.headD ""
  let name3 := ln.name.getD 3 ""
  let uid := name0 ++ ":" ++ name3 ++ zfill 4 featureNumber ++ "W" ++ zfill 5 (toString cnt)
  { chrom := ln.chrom
    wstart := p1
    wend := p2
    nameField := String.intercalate "@" (ln.name.take 5 ++ [uid, toString cnt])
    serial := cnt
    score := ln.score
    strand := ln.strand }

/-- The `while pos2 < end` loop body of `slidingWindow`, with explicit fuel.
Faithful to the source: emit the window `[pos1, pos2)`, advance both ends by
`windowStep` and bump the counter; if the advanced end strictly exceeds
`end`, emit one truncated window `[pos1, end)` (after which the Python loop
condition fails, since `pos2` was set to `end`); otherwise loop.  Note the
truncation branch fires only on `pos2 > end`: if the advance lands exactly on
`end`, the loop simply exits. -/
def winLoop (step : Nat) (ln : BedLine) (fn : String) :
    Nat → Nat → Nat → Nat → List WinRow × Nat
  | 0, _, _, cnt => ([], cnt)
  | fuel + 1, pos1, pos2, cnt =>
      if pos2 < ln.chromEnd then
        let r := mkWinRow ln fn pos1 pos2 cnt
        let pos1' := pos1 + step
        let pos2' := pos2 + step
        let cnt' := cnt + 1
        if ln.chromEnd < pos2' then
          ([r, mkWinRow ln fn pos1' ln.chromEnd cnt'], cnt' + 1)
        else
          let res := winLoop step ln fn fuel pos1' pos2' cnt'
          (r :: res.1, res.2)
      else ([], cnt)

/-- Window emission of `slidingWindow` for a single BED line, given the
counter value `cnt` for this line (`windowCount` after the map lookup).
Returns the emitted rows and the final `windowCount`, which the caller
stores back into `windowidMap[name[0]]`.  The fuel `chromEnd + 1` is enough
for every terminating run of the Python loop. -/
def slidingWindowLine (size step : Nat) (ln : BedLine) (cnt : Nat) :
    List WinRow × Nat :=
  let featureNumber := (splitOnChar '/' (ln.name.getD 4 "")).headD ""
  let pos2 := ln.chromStart + size
  if ln.chromEnd ≤ pos2 then
    ([mkWinRow ln featureNumber ln.chromStart ln.chromEnd cnt], cnt + 1)
  else
    winLoop step ln featureNumber (ln.chromEnd + 1) ln.chromStart pos2 cnt

/-- Insert/update `windowidMap[k] := v`, preserving Python dict semantics:
update in place when the key exists, append at the end otherwise. -/
def assocInsert {α : Type} (m : List (String × α)) (k : String) (v : α) :
    List (String × α) :=
  match m with
  | [] => [(k, v)]
  | (k', v') :: rest =>
      if k' == k then (k', v) :: rest else (k', v') :: assocInsert rest k v

/-- One iteration of the `slidingWindow` file loop: skip trailer lines
(raw lines starting with `"track"`, i.e. lines whose first field starts with
`"track"`); otherwise look up the per-name counter (`stored + 1` when the
name was seen before, `1` otherwise — the `try`/`except KeyError` in the
source), emit the line's windows and store the final counter back under
`name[0]`.  State: emitted rows so far × `windowidMap`. -/
def slidingWindowStep (size step : Nat)
    (st : List WinRow × List (String × Nat)) (ln : BedLine) :
    List WinRow × List (String × Nat) :=
  if ln.chrom.startsWith "track" then st
  else
    let name0 := ln.name.headD ""
    let cnt0 := match assocFind st.2 name0 with
      | some c => c + 1
      | none => 1
    let res := slidingWindowLine size step ln cnt0
    (st.1 ++ res.1, assocInsert st.2 name0 res.2)

/-- `gffCLIP.slidingWindow`: process a whole BED file (already parsed into
`BedLine`s) and return every emitted window row in order. -/
def slidingWindow (size step : Nat) (lines : List BedLine) : List WinRow :=
  (lines.foldl (slidingWindowStep size step) ([], [])).1

/-- Modelled from the spec: the `Gene` accumulator class (`Gene.py`, a file
of this repository that is not available under `src/`).  Per §3 of the
specification it holds one canonical gene feature and an ordered list of
subordinate features; `Gene.add` appends a subordinate feature. -/
structure GeneAcc where
  seed : Feature
  subs : List Feature
  deriving DecidableEq, Repr

/-- Modelled from the spec: `Gene.add(feature)` appends the feature to the
ordered subordinate list. -/
def GeneAcc.add (g : GeneAcc) (f : Feature) : GeneAcc :=
  { g with subs := g.subs ++ [f] }

/-- The fatal ordering error raised by `gffCLIP._process_sorted`. -/
def orderingErrorMsg : String :=
  "GTF/GFF file provides gene feature info before the actual gene definition."

/-- The data error raised by `gffCLIP._process_unsorted` on an empty map. -/
def noParseErrorMsg : String :=
  "Cannot parse gene features from the input file! Please check this input file"

/-- One iteration of the `_process_sorted` loop over the state
(current gene slot, genes finalized so far).  On a gene-defining feature the
current slot (if any) is finalized through `processGene` and replaced by a
fresh accumulator seeded from the feature; on any other feature an empty slot
is a fatal ordering error, otherwise the feature is added to the slot.
`isGene` abstracts `GTxFeature.isGene()` (external collaborator). -/
def processSortedStep (isGene : Feature → Bool)
    (st : Option GeneAcc × List GeneAcc) (f : Feature) :
    Except String (Option GeneAcc × List GeneAcc) :=
  if isGene f then
    Except.ok (some ⟨f, []⟩, st.2 ++ (match st.1 with
      | some g => [g]
      | none => []))
  else
    match st.1 with
    | none => Except.error orderingErrorMsg
    | some g => Except.ok (some (g.add f), st.2)

/-- `gffCLIP._process_sorted`: single pass over the feature stream; returns
the finalized gene accumulators in the order they are handed to
`processGene` (the last slot is finalized after the loop). -/
def processSorted (isGene : Feature → Bool) (fs : List Feature) :
    Except String (List GeneAcc) := do
  let st ← fs.foldlM (processSortedStep isGene) (none, [])
  return st.2 ++ (match st.1 with
    | some g => [g]
    | none => [])

/-- Python `self.geneId in f.attr` / `f.attr[self.geneId]`: look up an
attribute key in the feature's attribute mapping. -/
def lookupAttr (f : Feature) (k : String) : Option String :=
  (f.attr.find? (fun p => p.1 == k)).map Prod.snd

/-- Pass 1 step of `gffCLIP._process_unsorted`: skip features lacking the
gene-id attribute; otherwise add the feature to the `GeneInfo` of its gene id,
creating the entry on `KeyError` (new keys are appended in insertion order). -/
def geneMapStep (geneId : String) (m : List (String × GeneInfo)) (f : Feature) :
    List (String × GeneInfo) :=
  match lookupAttr f geneId with
  | none => m
  | some gid =>
      match assocFind m gid with
      | some g => assocInsert m gid (g.add_feature f)
      | none => assocInsert m gid ((GeneInfo.init gid).add_feature f)

/-- Pass 1 of `gffCLIP._process_unsorted`: build `self._geneMap`. -/
def buildGeneMap (geneId : String) (fs : List Feature) : List (String × GeneInfo) :=
  fs.foldl (geneMapStep geneId) []

/-- Pass 2 of `gffCLIP._process_unsorted`: for each gene id in insertion
order, resolve the canonical gene; on failure skip the id entirely; on
success seed a `Gene` accumulator from the canonical feature, add every
feature of the id whose type is not gene-defining, and finalize it
(`processGene` appends it to the run's output). -/
def processUnsortedPass2 (m : List (String × GeneInfo)) : List GeneAcc :=
  m.foldl (fun acc p =>
    match p.2.gene with
    | none => acc
    | some g =>
        let ga := p.2.features.foldl (fun ga f =>
          if defaultGeneDefinitions.contains f.type then ga else ga.add f) ⟨g, []⟩
        acc ++ [ga]) []

/-- `gffCLIP._process_unsorted`: build the gene map, fail with a data error
when it is empty, then run pass 2. -/
def processUnsorted (geneId : String) (fs : List Feature) :
    Except String (List GeneAcc) :=
  let m := buildGeneMap geneId fs
  if m.length == 0 then Except.error noParseErrorMsg
  else Except.ok (processUnsortedPass2 m)

/-- Modelled from the spec: the `GeneLengthSummary` accumulator
(`GeneLengthSummary.py`, a file of this repository that is not available
under `src/`).  Per §3 it is two insertion-ordered mappings,
chromosome → cumulative length and gene type → cumulative length. -/
structure GeneLengthSummary where
  chromosomes : List (String × Nat)
  genetypes : List (String × Nat)
  deriving DecidableEq, Repr

/-- The empty summary. -/
def GeneLengthSummary.empty : GeneLengthSummary := ⟨[], []⟩

/-- Add `len` to the bucket of key `k`, creating the bucket at the end when
the key is new (insertion-ordered cumulative mapping). -/
def bumpBucket (m : List (String × Nat)) (k : String) (len : Nat) :
    List (String × Nat) :=
  match assocFind m k with
  | some v => assocInsert m k (v + len)
  | none => m ++ [(k, len)]

/-- Modelled from the spec: `GeneLengthSummary.add(gene)` attributes the
gene's nucleotide length to its chromosome bucket and its gene-type bucket
(the exact length-attribution rule belongs to the external gene object, so
the length arrives here as a value). -/
def GeneLengthSummary.add (s : GeneLengthSummary) (chrom gtype : String)
    (len : Nat) : GeneLengthSummary :=
  ⟨bumpBucket s.chromosomes chrom len, bumpBucket s.genetypes gtype len⟩

/-- `gffCLIP._write_summary`: one `track chr <name> <length>` line per
chromosome bucket, then one `track type <name> <length>` line per gene-type
bucket, in the mappings' (insertion) order. -/
def writeSummaryLines (s : GeneLengthSummary) : List String :=
  s.chromosomes.map (fun p => "track chr " ++ p.1 ++ " " ++ toString p.2) ++
    s.genetypes.map (fun p => "track type " ++ p.1 ++ " " ++ toString p.2)

/-- The counter value used for the windows of one BED line: `stored + 1`
when `name[0]` already has an entry in `windowidMap`, else `1`. -/
def lineStartCounter (m : List (String × Nat)) (name0 : String) : Nat :=
  match assocFind m name0 with
  | some c => c + 1
  | none => 1

theorem mkWinRow_serial (ln : BedLine) (fn : String) (p1 p2 cnt : Nat) :
    (mkWinRow ln fn p1 p2 cnt).serial = cnt := rfl

theorem mkWinRow_wstart (ln : BedLine) (fn : String) (p1 p2 cnt : Nat) :
    (mkWinRow ln fn p1 p2 cnt).wstart = p1 := rfl

theorem mkWinRow_wend (ln : BedLine) (fn : String) (p1 p2 cnt : Nat) :
    (mkWinRow ln fn p1 p2 cnt).wend = p2 := rfl

/-- Within one run of the window loop, the emitted counter values are
consecutive starting at the incoming counter, and the final counter equals
the incoming counter plus the number of emitted rows.  Holds for every fuel
value. -/
theorem winLoop_serials (step : Nat) (ln : BedLine) (fn : String) :
    ∀ fuel pos1 pos2 cnt : Nat,
      ((winLoop step ln fn fuel pos1 pos2 cnt).1.map WinRow.serial
        = List.range' cnt (winLoop step ln fn fuel pos1 pos2 cnt).1.length) ∧
      (winLoop step ln fn fuel pos1 pos2 cnt).2
        = cnt + (winLoop step ln fn fuel pos1 pos2 cnt).1.length := by
  intro fuel
  induction fuel with
  | zero => intro pos1 pos2 cnt; simp [winLoop]
  | succ n ih =>
      intro pos1 pos2 cnt
      by_cases h1 : pos2 < ln.chromEnd
      · by_cases h2 : ln.chromEnd < pos2 + step
        · simp [winLoop, h1, h2, mkWinRow_serial, List.range'_succ]
        · obtain ⟨ih1, ih2⟩ := ih (pos1 + step) (pos2 + step) (cnt + 1)
          simp only [winLoop, if_pos h1, if_neg h2]
          refine ⟨?_, ?_⟩
          · simp [mkWinRow_serial, ih1, List.range'_succ]
          · simp [ih2]; omega
      · simp [winLoop, h1]

/-- Window emission for one line: counter values are consecutive starting at
the incoming counter, and the returned final counter is the incoming counter
plus the number of rows. -/
theorem slidingWindowLine_serials (size step : Nat) (ln : BedLine) (cnt : Nat) :
    ((slidingWindowLine size step ln cnt).1.map WinRow.serial
      = List.range' cnt (slidingWindowLine size step ln cnt).1.length) ∧
    (slidingWindowLine size step ln cnt).2
      = cnt + (slidingWindowLine size step ln cnt).1.length := by
  by_cases h : ln.chromEnd ≤ ln.chromStart + size
  · simp [slidingWindowLine, h, mkWinRow_serial, List.range'_succ]
  · simp only [slidingWindowLine, if_neg h]
    exact winLoop_serials step ln _ (ln.chromEnd + 1) ln.chromStart (ln.chromStart + size) cnt

/-- All rows of the window loop have `wstart < wend`, provided
`1 ≤ windowSize` and `windowStep ≤ windowSize` (the loop maintains
`pos2 = pos1 + windowSize`).  Holds for every fuel value. -/
theorem winLoop_wstart_lt (size step : Nat) (ln : BedLine) (fn : String)
    (hsize : 1 ≤ size) (hstep : step ≤ size) :
    ∀ fuel pos1 cnt : Nat,
      ∀ r ∈ (winLoop step ln fn fuel pos1 (pos1 + size) cnt).1, r.wstart < r.wend := by
  intro fuel
  induction fuel with
  | zero => intro pos1 cnt r hr; simp [winLoop] at hr
  | succ n ih =>
      intro pos1 cnt r hr
      by_cases h1 : pos1 + size < ln.chromEnd
      · by_cases h2 : ln.chromEnd < pos1 + size + step
        · simp only [winLoop, if_pos h1, if_pos h2, List.mem_cons, List.mem_singleton] at hr
          rcases hr with hr | hr | hr
          · subst hr; simp [mkWinRow_wstart, mkWinRow_wend]; omega
          · subst hr; simp [mkWinRow_wstart, mkWinRow_wend]; omega
          · cases hr
        · simp only [winLoop, if_pos h1, if_neg h2, List.mem_cons] at hr
          rcases hr with hr | hr
          · subst hr; simp [mkWinRow_wstart, mkWinRow_wend]; omega
          · have heq : pos1 + size + step = pos1 + step + size := by omega
            rw [heq] at hr
            exact ih (pos1 + step) (cnt + 1) r hr
      · simp [winLoop, h1] at hr

/-- C7: For every interval `[start, end)` with `start + windowSize ≥ end`,
`slidingWindow` emits exactly one window `[start, end)` for that line
(the `pos2 >= end` branch of the source). -/
theorem c7_single_window (size step : Nat) (ln : BedLine) (cnt : Nat)
    (h : ln.chromEnd ≤ ln.chromStart + size) :
    (slidingWindowLine size step ln cnt).1.map (fun r => (r.wstart, r.wend))
      = [(ln.chromStart, ln.chromEnd)] := by
  simp [slidingWindowLine, if_pos h, mkWinRow]

/-- Witness for C7 at the spec's example `start = 0, end = 30,
windowSize = 50`: the whole interval is the single window `[0, 30)`. -/
theorem c7_single_window_witness :
    (30 ≤ 0 + 50) ∧
      ((slidingWindowLine 50 20 ⟨"c", 0, 30, ["g", "a", "b", "T", "1/1"], "0", "+"⟩ 1).1.map
        (fun r => (r.wstart, r.wend)) = [(0, 30)]) :=
  ⟨by decide,
    c7_single_window 50 20 ⟨"c", 0, 30, ["g", "a", "b", "T", "1/1"], "0", "+"⟩ 1 (by decide)⟩

/-- C1: the sliding-window loop, run on the claim's own example
`[100, 210)` with `windowSize = 50`, `windowStep = 20`, emits only
`[100,150), [120,170), [140,190)`.  The final window `[160,210)` demanded
by the claim is dropped: stepping from `190` lands exactly on `210`, the
loop condition `pos2 < end` fails, and the truncation branch fires only on
`pos2 > end`, so `[190, 210)` is left uncovered. -/
theorem c1_final_window_dropped :
    (slidingWindow 50 20 [⟨"chr1", 100, 210, ["g", "a", "b", "T", "0001/1"], "0", "+"⟩]).map
        (fun r => (r.wstart, r.wend))
      = [(100, 150), (120, 170), (140, 190)] := by
  rfl

/-- C2 counterexample: two single-window BED lines sharing `name[0] = "g"`.
The windows carry counters `1` and `3` — not `1` and `2` as the claim's
"the n-th window emitted for that name carries counter value n" requires —
because on the second line the stored counter is incremented once more
before any window is emitted. -/
theorem c2_counter_skips :
    ((slidingWindow 50 20
        [⟨"c", 0, 30, ["g", "a", "b", "T", "1/1"], "0", "+"⟩,
         ⟨"c", 40, 70, ["g", "a", "b", "T", "2/1"], "0", "+"⟩]).map
        (fun r => r.serial) = [1, 3]) ∧
      ¬ ((slidingWindow 50 20
        [⟨"c", 0, 30, ["g", "a", "b", "T", "1/1"], "0", "+"⟩,
         ⟨"c", 40, 70, ["g", "a", "b", "T", "2/1"], "0", "+"⟩]).map
        (fun r => r.serial) = [1, 2]) := by
  constructor
  · rfl
  · decide

/-- C10 counterexample: with `windowStep = 20 ≤ windowSize = 50`, the line
`[0, 0)` yields the empty window `[0, 0)`; and with
`windowStep = 0 ≤ windowSize = 0`, the line `[0, 5)` yields empty windows
`[0, 0)`.  So "every emitted window has start < end" fails as stated. -/
theorem c10_empty_window :
    ¬ (∀ r ∈ (slidingWindowLine 50 20 ⟨"c", 0, 0, ["g", "a", "b", "T", "1/1"], "0", "+"⟩ 1).1,
        r.wstart < r.wend) ∧
      ¬ (∀ r ∈ (slidingWindowLine 0 0 ⟨"c", 0, 5, ["g", "a", "b", "T", "1/1"], "0", "+"⟩ 1).1,
        r.wstart < r.wend) := by
  constructor
  · intro h
    have := h ((slidingWindowLine 50 20 ⟨"c", 0, 0, ["g", "a", "b", "T", "1/1"], "0", "+"⟩ 1).1.headD
        default) (by decide)
    revert this
    decide
  · intro h
    have := h ((slidingWindowLine 0 0 ⟨"c", 0, 5, ["g", "a", "b", "T", "1/1"], "0", "+"⟩ 1).1.headD
        default) (by decide)
    revert this
    decide

/-- C2 amended: the window counter is a mapping keyed on `name[0]` that is
persisted across the whole file and incremented once per emitted window
within a line, but on every line after the first for a given name the stored
counter is incremented once more before the first window of that line is
emitted.  Precisely: for a non-trailer line, the line's windows carry the
consecutive counters `c₀, c₀ + 1, …` where `c₀` is `1` if `name[0]` is
unseen and `stored + 1` otherwise, and `name[0]`'s map entry becomes
`c₀ + (number of windows emitted)`; hence counter values skip one between
consecutive lines of the same name, and the n-th window for a name carries
`n` only within that name's first line. -/
theorem c2_counter_per_line (size step : Nat)
    (st : List WinRow × List (String × Nat)) (ln : BedLine)
    (h : ln.chrom.startsWith "track" = false) :
    slidingWindowStep size step st ln
      = (st.1 ++ (slidingWindowLine size step ln
            (lineStartCounter st.2 (ln.name.headD ""))).1,
          assocInsert st.2 (ln.name.headD "")
            (lineStartCounter st.2 (ln.name.headD "")
              + (slidingWindowLine size step ln
                  (lineStartCounter st.2 (ln.name.headD ""))).1.length)) ∧
      (slidingWindowLine size step ln
          (lineStartCounter st.2 (ln.name.headD ""))).1.map WinRow.serial
        = List.range' (lineStartCounter st.2 (ln.name.headD ""))
            (slidingWindowLine size step ln
              (lineStartCounter st.2 (ln.name.headD ""))).1.length := by
  have hfold : (match assocFind st.2 (ln.name.headD "") with
      | some c => c + 1
      | none => 1) = lineStartCounter st.2 (ln.name.headD "") := rfl
  obtain ⟨hs, hc⟩ := slidingWindowLine_serials size step ln
    (lineStartCounter st.2 (ln.name.headD ""))
  refine ⟨?_, hs⟩
  simp only [slidingWindowStep, h, Bool.false_eq_true, if_false, hfold, hc]

/-- Witness for the amended C2 at a concrete first line for name `"g"`:
the single window carries counter 1 and the map entry for `"g"` becomes 2. -/
theorem c2_counter_per_line_witness :
    ("c".startsWith "track" = false) ∧
      (slidingWindowStep 50 20 ([], [])
          ⟨"c", 0, 30, ["g", "a", "b", "T", "1/1"], "0", "+"⟩
        = ((slidingWindowLine 50 20
              ⟨"c", 0, 30, ["g", "a", "b", "T", "1/1"], "0", "+"⟩ 1).1,
            [("g", 2)]) ∧
        (slidingWindowLine 50 20
            ⟨"c", 0, 30, ["g", "a", "b", "T", "1/1"], "0", "+"⟩ 1).1.map WinRow.serial
          = [1]) :=
  ⟨rfl, c2_counter_per_line 50 20 ([], [])
    ⟨"c", 0, 30, ["g", "a", "b", "T", "1/1"], "0", "+"⟩ rfl⟩

/-- C10 amended: for a line with `start < end`, every emitted window row has
`wstart < wend`, provided either the line is in the single-window case
(`start + windowSize ≥ end`, which needs no condition on the step) or
`1 ≤ windowSize` and `windowStep ≤ windowSize`. -/
theorem c10_windows_nonempty (size step : Nat) (ln : BedLine) (cnt : Nat)
    (h0 : ln.chromStart < ln.chromEnd)
    (h1 : ln.chromEnd ≤ ln.chromStart + size ∨ (1 ≤ size ∧ step ≤ size)) :
    ∀ r ∈ (slidingWindowLine size step ln cnt).1, r.wstart < r.wend := by
  intro r hr
  by_cases h : ln.chromEnd ≤ ln.chromStart + size
  · simp only [slidingWindowLine, if_pos h, List.mem_singleton] at hr
    subst hr
    simp [mkWinRow_wstart, mkWinRow_wend, h0]
  · simp only [slidingWindowLine, if_neg h] at hr
    rcases h1 with h1 | ⟨hsize, hstep⟩
    · exact absurd h1 h
    · exact winLoop_wstart_lt size step ln _ hsize hstep
        (ln.chromEnd + 1) ln.chromStart cnt r hr

/-- Witness for the amended C10 at the interval `[100, 210)` with
`windowSize = 50`, `windowStep = 20`: the first emitted row is a non-empty
window. -/
theorem c10_windows_nonempty_witness :
    ((slidingWindowLine 50 20
        ⟨"c", 100, 210, ["g", "a", "b", "T", "1/1"], "0", "+"⟩ 1).1.headD default).wstart
      < ((slidingWindowLine 50 20
        ⟨"c", 100, 210, ["g", "a", "b", "T", "1/1"], "0", "+"⟩ 1).1.headD default).wend :=
  c10_windows_nonempty 50 20 ⟨"c", 100, 210, ["g", "a", "b", "T", "1/1"], "0", "+"⟩ 1
    (by decide) (Or.inr ⟨by decide, by decide⟩) _ (by decide)

/-- C4: in sorted mode, a stream whose content violates the ordering
contract — i.e. a stream starting with a non-gene-defining feature, which is
exactly a stream containing a subordinate feature before any gene-defining
feature has been seen — makes `_process_sorted` raise the fatal ordering
error; and whenever a current accumulator exists, a non-gene-defining
feature is appended to it by the loop step. -/
theorem c4_sorted_mode (isGene : Feature → Bool) :
    (∀ (f : Feature) (fs : List Feature), isGene f = false →
      processSorted isGene (f :: fs) = Except.error orderingErrorMsg) ∧
    (∀ (acc : GeneAcc) (out : List GeneAcc) (f : Feature), isGene f = false →
      processSortedStep isGene (some acc, out) f = Except.ok (some (acc.add f), out)) := by
  constructor
  · intro f fs hf
    simp only [processSorted, List.foldlM_cons, processSortedStep, hf,
      Bool.false_eq_true, if_false]
    rfl
  · intro acc out f hf
    simp [processSortedStep, hf]

/-- Witness for C4: a lone exon with no preceding gene aborts with the
ordering error, and an exon arriving while a gene accumulator exists is
appended to its subordinate list. -/
theorem c4_sorted_mode_witness :
    ((fun f : Feature => f.type == "gene") ⟨"exon", 1, 2, "+", []⟩ = false) ∧
      processSorted (fun f : Feature => f.type == "gene") [⟨"exon", 1, 2, "+", []⟩]
        = Except.error orderingErrorMsg ∧
      processSortedStep (fun f : Feature => f.type == "gene")
          (some ⟨⟨"gene", 0, 9, "+", []⟩, []⟩, []) ⟨"exon", 1, 2, "+", []⟩
        = Except.ok (some ⟨⟨"gene", 0, 9, "+", []⟩, [⟨"exon", 1, 2, "+", []⟩]⟩, []) :=
  ⟨rfl, (c4_sorted_mode _).1 _ [] rfl, (c4_sorted_mode _).2 _ [] _ rfl⟩

theorem assocFind_insert_self {α : Type} (m : List (String × α)) (k : String) (v : α) :
    assocFind (assocInsert m k v) k = some v := by
  induction m with
  | nil => simp [assocInsert, assocFind]
  | cons p rest ih =>
      by_cases h : p.1 == k
      · simp [assocInsert, assocFind, h]
      · simp [assocInsert, assocFind, h, ih]

theorem assocFind_insert_ne {α : Type} (m : List (String × α)) (k : String) (v : α)
    (k' : String) (h : k' ≠ k) :
    assocFind (assocInsert m k v) k' = assocFind m k' := by
  induction m with
  | nil =>
      simp only [assocInsert, assocFind]
      rw [if_neg (by simpa [beq_iff_eq] using fun hkk => h hkk.symm)]
  | cons p rest ih =>
      by_cases hp : p.1 == k
      · have hpk : p.1 = k := by simpa [beq_iff_eq] using hp
        simp [assocInsert, assocFind, hp, hpk,
          show (k == k') = false by simpa [beq_eq_false_iff_ne] using fun hkk => h hkk.symm]
      · simp [assocInsert, assocFind, hp, ih]

/-- Pass-1 lookup characterization, generalized over the accumulated map:
folding the feature stream into a gene map extends each gene id's
`GeneInfo` with exactly the features carrying that id, in stream order. -/
theorem buildGeneMap_lookup_aux (geneId : String) :
    ∀ (fs : List Feature) (m : List (String × GeneInfo)) (gid : String),
      assocFind (fs.foldl (geneMapStep geneId) m) gid
        = match assocFind m gid with
          | some g =>
              some ((fs.filter (fun f => lookupAttr f geneId == some gid)).foldl
                GeneInfo.add_feature g)
          | none =>
              if (fs.filter (fun f => lookupAttr f geneId == some gid)).isEmpty then none
              else some ((fs.filter (fun f => lookupAttr f geneId == some gid)).foldl
                GeneInfo.add_feature (GeneInfo.init gid)) := by
  intro fs
  induction fs with
  | nil =>
      intro m gid
      cases h : assocFind m gid <;> simp [h]
  | cons f fs ih =>
      intro m gid
      rw [List.foldl_cons, ih (geneMapStep geneId m f) gid]
      cases hattr : lookupAttr f geneId with
      | none =>
          have hstep : geneMapStep geneId m f = m := by simp [geneMapStep, hattr]
          have hcond : (lookupAttr f geneId == some gid) = false := by simp [hattr]
          rw [hstep, List.filter_cons_of_neg (by simp [hcond])]
      | some gid' =>
          by_cases hg : gid' = gid
          · subst hg
            have hcond : (lookupAttr f geneId == some gid') = true := by simp [hattr]
            rw [List.filter_cons_of_pos (by simp [hcond])]
            cases hm : assocFind m gid' with
            | some g =>
                have hstep : geneMapStep geneId m f = assocInsert m gid' (g.add_feature f) := by
                  simp [geneMapStep, hattr, hm]
                rw [hstep, assocFind_insert_self]
                rfl
            | none =>
                have hstep : geneMapStep geneId m f
                    = assocInsert m gid' ((GeneInfo.init gid').add_feature f) := by
                  simp [geneMapStep, hattr, hm]
                rw [hstep, assocFind_insert_self]
                simp
          · have hcond : (lookupAttr f geneId == some gid) = false := by
              simp [hattr, hg]
            rw [List.filter_cons_of_neg (by simp [hcond])]
            have hfind : assocFind (geneMapStep geneId m f) gid = assocFind m gid := by
              cases hm : assocFind m gid' with
              | some g =>
                  simp [geneMapStep, hattr, hm,
                    assocFind_insert_ne _ _ _ _ (Ne.symm hg)]
              | none =>
                  simp [geneMapStep, hattr, hm,
                    assocFind_insert_ne _ _ _ _ (Ne.symm hg)]
            rw [hfind]

/-- When no feature carries the gene-id attribute, pass 1 leaves the map
untouched. -/
theorem buildGeneMap_all_none (geneId : String) :
    ∀ (fs : List Feature), (∀ f ∈ fs, (lookupAttr f geneId).isNone) →
      ∀ m, fs.foldl (geneMapStep geneId) m = m := by
  intro fs
  induction fs with
  | nil => intro _ m; rfl
  | cons f fs ih =>
      intro h m
      have hf : lookupAttr f geneId = none := by
        have := h f (List.mem_cons_self f fs)
        simpa [Option.isNone_iff_eq_none] using this
      rw [List.foldl_cons, show geneMapStep geneId m f = m by simp [geneMapStep, hf]]
      exact ih (fun g hg => h g (List.mem_cons_of_mem f hg)) m

/-- C5: pass 1 of unsorted mode silently drops every feature lacking the
configured gene-id attribute and appends every other feature to the
`GeneInfo` of its gene id (first conjunct: the map entry of each gene id is
the `GeneInfo` built from exactly the features carrying that id, in order);
and when the stream has no attribute-bearing feature at all, the map is
empty and processing aborts with the data error (second conjunct). -/
theorem c5_unsorted_pass1 (geneId : String) (fs : List Feature) (gid : String) :
    (assocFind (buildGeneMap geneId fs) gid
      = if (fs.filter (fun f => lookupAttr f geneId == some gid)).isEmpty then none
        else some (geneInfoOfList gid
          (fs.filter (fun f => lookupAttr f geneId == some gid)))) ∧
    ((∀ f ∈ fs, (lookupAttr f geneId).isNone) →
      processUnsorted geneId fs = Except.error noParseErrorMsg) := by
  constructor
  · rw [buildGeneMap, buildGeneMap_lookup_aux geneId fs [] gid]
    rfl
  · intro h
    rw [processUnsorted, buildGeneMap, buildGeneMap_all_none geneId fs h []]
    rfl

/-- Witness for C5 with a one-feature stream carrying no attributes:
the run aborts with the data error. -/
theorem c5_unsorted_pass1_witness :
    (∀ f ∈ ([⟨"gene", 1, 2, "+", []⟩] : List Feature), (lookupAttr f "gene_id").isNone) ∧
      processUnsorted "gene_id" [⟨"gene", 1, 2, "+", []⟩]
        = Except.error noParseErrorMsg :=
  ⟨by decide, (c5_unsorted_pass1 "gene_id" [⟨"gene", 1, 2, "+", []⟩] "x").2 (by decide)⟩

/-- The subordinate-feature fold of pass 2 keeps exactly the features whose
type is not gene-defining, in order. -/
theorem geneAccFold_filter :
    ∀ (l : List Feature) (g : Feature) (s : List Feature),
      (l.foldl (fun ga f =>
          if defaultGeneDefinitions.contains f.type then ga else ga.add f)
        (⟨g, s⟩ : GeneAcc))
        = ⟨g, s ++ l.filter (fun f => !(defaultGeneDefinitions.contains f.type))⟩ := by
  intro l
  induction l with
  | nil => intro g s; simp
  | cons f l ih =>
      intro g s
      by_cases h : defaultGeneDefinitions.contains f.type
      · have h' : f.type ∈ defaultGeneDefinitions := by simpa using h
        rw [List.foldl_cons, if_pos h, ih, List.filter_cons_of_neg (by simp [h'])]
      · have h' : f.type ∉ defaultGeneDefinitions := by simpa using h
        rw [List.foldl_cons, if_neg h]
        show (l.foldl _ (⟨g, s ++ [f]⟩ : GeneAcc)) = _
        rw [ih, List.filter_cons_of_pos (by simp [h'])]
        simp

/-- Pass 2 as a fold, generalized over the output accumulated so far. -/
theorem pass2_acc_aux :
    ∀ (m : List (String × GeneInfo)) (acc : List GeneAcc),
      m.foldl (fun acc p =>
        match p.2.gene with
        | none => acc
        | some g =>
            acc ++ [p.2.features.foldl (fun ga f =>
              if defaultGeneDefinitions.contains f.type then ga else ga.add f) ⟨g, []⟩]) acc
        = acc ++ m.filterMap (fun p => p.2.gene.map (fun g =>
            (⟨g, p.2.features.filter (fun f => !(defaultGeneDefinitions.contains f.type))⟩ :
              GeneAcc))) := by
  intro m
  induction m with
  | nil => intro acc; simp
  | cons p m ih =>
      intro acc
      rw [List.foldl_cons]
      cases hg : p.2.gene with
      | none => simp only [List.filterMap_cons, hg, Option.map_none]; exact ih acc
      | some g =>
          simp only [List.filterMap_cons, hg, Option.map_some]
          rw [ih (acc ++ [_]), geneAccFold_filter, List.append_assoc]
          rfl

/-- C6: pass 2 of unsorted mode equals a `filterMap` over the gene map:
every gene id whose resolution fails (`GeneInfo.gene = none`, i.e. empty or
ambiguous gene-definition intersection, or duplicate definitions with
differing coordinates) contributes nothing — no finalized accumulator, hence
no BED row and no summary contribution — while the run continues totally;
and every successfully resolved id is finalized as the canonical feature
plus exactly those of its features whose type is not gene-defining. -/
theorem c6_skip_unresolved (m : List (String × GeneInfo)) :
    processUnsortedPass2 m
      = m.filterMap (fun p => p.2.gene.map (fun g =>
          (⟨g, p.2.features.filter (fun f => !(defaultGeneDefinitions.contains f.type))⟩ :
            GeneAcc))) := by
  rw [processUnsortedPass2]
  exact pass2_acc_aux m []

theorem assocFind_typeMapAdd (m : List (String × List Nat)) (t0 : String) (j : Nat)
    (t : String) :
    assocFind (typeMapAdd m t0 j) t
      = if t = t0 then some ((assocFind m t).getD [] ++ [j]) else assocFind m t := by
  induction m with
  | nil =>
      by_cases h : t = t0
      · subst h; simp [typeMapAdd, assocFind]
      · have h2 : ¬ t0 = t := fun hc => h hc.symm
        simp [typeMapAdd, assocFind, h, h2]
  | cons p rest ih =>
      by_cases hk : p.1 == t0
      · have hk' : p.1 = t0 := by simpa [beq_iff_eq] using hk
        by_cases h : t = t0
        · subst h
          simp [typeMapAdd, assocFind, hk, hk']
        · have : (p.1 == t) = false := by
            simp [beq_eq_false_iff_ne, hk']
            exact fun hc => h hc.symm
          simp [typeMapAdd, assocFind, hk, this, h]
      · have hk' : p.1 ≠ t0 := by simpa [beq_eq_false_iff_ne] using (Bool.of_not_eq_true hk)
        by_cases hpt : p.1 == t
        · have hpt' : p.1 = t := by simpa [beq_iff_eq] using hpt
          have hne : ¬ t = t0 := fun hc => hk' (hpt'.trans hc)
          simp [typeMapAdd, assocFind, hk, hpt, hne]
        · simp [typeMapAdd, assocFind, hk, hpt, ih]

theorem typeMapAdd_keys (m : List (String × List Nat)) (t0 : String) (j : Nat) :
    (typeMapAdd m t0 j).map Prod.fst
      = if t0 ∈ m.map Prod.fst then m.map Prod.fst else m.map Prod.fst ++ [t0] := by
  induction m with
  | nil => simp [typeMapAdd]
  | cons p rest ih =>
      by_cases hk : p.1 == t0
      · have hk' : p.1 = t0 := by simpa [beq_iff_eq] using hk
        simp [typeMapAdd, hk, hk']
      · have hk' : p.1 ≠ t0 := by simpa [beq_eq_false_iff_ne] using (Bool.of_not_eq_true hk)
        have hne : ¬ t0 = p.1 := fun hc => hk' hc.symm
        simp only [typeMapAdd, hk, Bool.false_eq_true, if_false, List.map_cons, ih,
          List.mem_cons, hne, false_or]
        by_cases hmem : t0 ∈ rest.map Prod.fst <;> simp [hmem]

theorem assocFind_isSome_iff {α : Type} (m : List (String × α)) (t : String) :
    (assocFind m t).isSome ↔ t ∈ m.map Prod.fst := by
  induction m with
  | nil => simp [assocFind]
  | cons p rest ih =>
      by_cases hk : p.1 == t
      · have hk' : p.1 = t := by simpa [beq_iff_eq] using hk
        simp [assocFind, hk, hk']
      · have hk' : p.1 ≠ t := by simpa [beq_eq_false_iff_ne] using (Bool.of_not_eq_true hk)
        have hne : ¬ t = p.1 := fun hc => hk' hc.symm
        simp only [assocFind, hk, Bool.false_eq_true, if_false, List.map_cons,
          List.mem_cons, hne, false_or]
        exact ih

theorem typeIndices_append (fs : List Feature) (x : Feature) (t : String) :
    typeIndices (fs ++ [x]) t
      = typeIndices fs t ++ (if x.type == t then [fs.length] else []) := by
  unfold typeIndices
  rw [List.length_append, List.length_singleton, List.range_succ, List.filter_append]
  congr 1
  · apply List.filter_congr
    intro i hi
    have hilt : i < fs.length := List.mem_range.mp hi
    rw [List.getD_append _ _ _ _ hilt]
  · rw [List.filter_singleton]
    have hx : (fs ++ [x]).getD fs.length default = x := by
      rw [List.getD_append_right _ _ _ _ (le_refl _)]
      simp
    rw [hx]
    cases hxt : x.type == t <;> simp [hxt]

theorem typeIndices_cons (a : Feature) (fs : List Feature) (t : String) :
    typeIndices (a :: fs) t
      = (if a.type == t then [0] else []) ++ (typeIndices fs t).map Nat.succ := by
  unfold typeIndices
  rw [List.length_cons, List.range_succ_eq_map, List.filter_cons, List.filter_map]
  have hcomp : ((fun i => ((a :: fs).getD i default).type == t) ∘ Nat.succ)
      = (fun i => (fs.getD i default).type == t) := rfl
  rw [hcomp]
  by_cases hc : a.type == t
  · have h0 : (((a :: fs).getD 0 default).type == t) = true := hc
    simp [h0, hc]
  · have h0 : (((a :: fs).getD 0 default).type == t) = false := by
      simpa using hc
    simp [h0, Bool.of_not_eq_true hc]

theorem typeIndices_map_getD (fs : List Feature) (t : String) :
    (typeIndices fs t).map (fun i => fs.getD i default)
      = fs.filter (fun f => f.type == t) := by
  induction fs with
  | nil => simp [typeIndices]
  | cons a fs ih =>
      rw [typeIndices_cons, List.map_append, List.map_map, List.filter_cons]
      have hmap : ((typeIndices fs t).map ((fun i => (a :: fs).getD i default) ∘ Nat.succ))
          = (typeIndices fs t).map (fun i => fs.getD i default) := rfl
      rw [hmap, ih]
      by_cases hc : a.type == t <;> simp [hc]

theorem typeIndices_eq_nil_iff (fs : List Feature) (t : String) :
    typeIndices fs t = [] ↔ fs.any (fun f => f.type == t) = false := by
  constructor
  · intro h
    have hmap := typeIndices_map_getD fs t
    rw [h] at hmap
    have hmem : fs.filter (fun f => f.type == t) = [] := hmap.symm
    rw [List.filter_eq_nil_iff] at hmem
    rw [List.any_eq_false]
    intro f hf
    exact hmem f hf
  · intro h
    rw [List.any_eq_false] at h
    have hfil : fs.filter (fun f => f.type == t) = [] := by
      rw [List.filter_eq_nil_iff]
      intro f hf
      exact h f hf
    have hmap := typeIndices_map_getD fs t
    rw [hfil] at hmap
    exact List.map_eq_nil_iff.mp hmap

/-- The `GeneInfo` construction invariant, generalized over the starting
container: folding features in with `add_feature` appends them to `featList`
and keeps `typeMap` an exact, duplicate-free type → positions index. -/
theorem geneInfo_build_aux :
    ∀ (fs : List Feature) (g : GeneInfo),
      (∀ t, assocFind g.typeMap t
        = if (typeIndices g.featList t).isEmpty then none
          else some (typeIndices g.featList t)) →
      (g.typeMap.map Prod.fst).Nodup →
      ((fs.foldl GeneInfo.add_feature g).featList = g.featList ++ fs) ∧
      (∀ t, assocFind (fs.foldl GeneInfo.add_feature g).typeMap t
        = if (typeIndices (g.featList ++ fs) t).isEmpty then none
          else some (typeIndices (g.featList ++ fs) t)) ∧
      (((fs.foldl GeneInfo.add_feature g).typeMap.map Prod.fst).Nodup) ∧
      ((fs.foldl GeneInfo.add_feature g).geneDefinitions = g.geneDefinitions) := by
  intro fs
  induction fs with
  | nil => intro g h1 h2; exact ⟨by simp, by simpa using h1, h2, rfl⟩
  | cons x fs ih =>
      intro g h1 h2
      have hfl : (g.add_feature x).featList = g.featList ++ [x] := rfl
      have hkeys : ((g.add_feature x).typeMap.map Prod.fst).Nodup := by
        show ((typeMapAdd g.typeMap x.type g.featList.length).map Prod.fst).Nodup
        rw [typeMapAdd_keys]
        by_cases hmem : x.type ∈ g.typeMap.map Prod.fst
        · simpa [hmem] using h2
        · simp only [hmem, if_false]
          simp [List.nodup_append, h2, hmem]
      have hlook : ∀ t, assocFind (g.add_feature x).typeMap t
          = if (typeIndices (g.featList ++ [x]) t).isEmpty then none
            else some (typeIndices (g.featList ++ [x]) t) := by
        intro t
        show assocFind (typeMapAdd g.typeMap x.type g.featList.length) t = _
        rw [assocFind_typeMapAdd, typeIndices_append, h1 t]
        by_cases ht : t = x.type
        · subst ht
          by_cases he : (typeIndices g.featList x.type).isEmpty
          · have he' : typeIndices g.featList x.type = [] := by
              simpa [List.isEmpty_iff] using he
            simp [he', he]
          · have he' : ¬ typeIndices g.featList x.type = [] := by
              simpa [List.isEmpty_iff] using he
            simp [he, he']
        · have ht' : (x.type == t) = false := by
            have : x.type ≠ t := fun hc => ht hc.symm
            simpa [beq_eq_false_iff_ne] using this
          simp [ht, ht']
      obtain ⟨ih1, ih2, ih3, ih4⟩ := ih (g.add_feature x)
        (fun t => by rw [hfl]; exact hlook t) hkeys
      refine ⟨?_, ?_, ih3, ih4⟩
      · rw [List.foldl_cons, ih1, hfl, List.append_assoc]; rfl
      · intro t
        rw [List.foldl_cons, ih2 t, hfl, List.append_assoc]
        rfl

theorem geneInfoOfList_featList (id : String) (fs : List Feature) :
    (geneInfoOfList id fs).featList = fs := by
  have := (geneInfo_build_aux fs (GeneInfo.init id)
    (by intro t; simp [GeneInfo.init, assocFind, typeIndices])
    (by simp [GeneInfo.init])).1
  simpa [geneInfoOfList, GeneInfo.init] using this

theorem geneInfoOfList_lookup (id : String) (fs : List Feature) (t : String) :
    assocFind (geneInfoOfList id fs).typeMap t
      = if (typeIndices fs t).isEmpty then none else some (typeIndices fs t) := by
  have := ((geneInfo_build_aux fs (GeneInfo.init id)
    (by intro t'; simp [GeneInfo.init, assocFind, typeIndices])
    (by simp [GeneInfo.init])).2).1 t
  simpa [geneInfoOfList, GeneInfo.init] using this

theorem geneInfoOfList_keys_nodup (id : String) (fs : List Feature) :
    ((geneInfoOfList id fs).typeMap.map Prod.fst).Nodup :=
  ((geneInfo_build_aux fs (GeneInfo.init id)
    (by intro t'; simp [GeneInfo.init, assocFind, typeIndices])
    (by simp [GeneInfo.init])).2).2.1

theorem geneInfoOfList_geneDefs (id : String) (fs : List Feature) :
    (geneInfoOfList id fs).geneDefinitions = defaultGeneDefinitions :=
  ((geneInfo_build_aux fs (GeneInfo.init id)
    (by intro t'; simp [GeneInfo.init, assocFind, typeIndices])
    (by simp [GeneInfo.init])).2).2.2

/-- C9: invariant of `GeneInfo` maintained by every `add_feature` call:
`featList` holds every feature ever added, in insertion order; for every
type `t` the `_typeMap` entry of `t` exists exactly when `t` occurs and then
equals the list of positions holding type `t` (`typeIndices`, which is the
filter of `range` and hence strictly increasing — fourth conjunct); and the
`features` property returns the full list. -/
theorem c9_geneinfo_invariant (id : String) (fs : List Feature) :
    ((geneInfoOfList id fs).features = fs) ∧
    ((geneInfoOfList id fs).featList = fs) ∧
    (∀ t, assocFind (geneInfoOfList id fs).typeMap t
      = if (typeIndices fs t).isEmpty then none else some (typeIndices fs t)) ∧
    (∀ t, (typeIndices fs t).Pairwise (fun i j => i < j)) := by
  refine ⟨?_, geneInfoOfList_featList id fs, geneInfoOfList_lookup id fs, ?_⟩
  · show (geneInfoOfList id fs).featList = fs
    exact geneInfoOfList_featList id fs
  · intro t
    unfold typeIndices
    exact (List.pairwise_lt_range fs.length).sublist (List.filter_sublist _)

theorem dedup_length_one_iff {α : Type} [DecidableEq α] (a : α) (l : List α) :
    ((a :: l).dedup.length = 1) ↔ ∀ x ∈ a :: l, x = a := by
  constructor
  · intro h x hx
    obtain ⟨b, hb⟩ := List.length_eq_one.mp h
    have hxb : x = b := by
      have hxd : x ∈ (a :: l).dedup := List.mem_dedup.mpr hx
      rw [hb] at hxd
      simpa using hxd
    have hab : a = b := by
      have had : a ∈ (a :: l).dedup := List.mem_dedup.mpr (List.mem_cons_self a l)
      rw [hb] at had
      simpa using had
    rw [hxb, ← hab]
  · intro h
    have hmem : ∀ x ∈ (a :: l).dedup, x = a := fun x hx => h x (List.mem_dedup.mp hx)
    have hnd : (a :: l).dedup.Nodup := List.nodup_dedup _
    have had : a ∈ (a :: l).dedup := List.mem_dedup.mpr (List.mem_cons_self a l)
    rcases hd : (a :: l).dedup with _ | ⟨b, _ | ⟨c, tl⟩⟩
    · rw [hd] at had; cases had
    · rfl
    · rw [hd] at hmem hnd
      exfalso
      have hb : b = a := hmem b (by simp)
      have hc : c = a := hmem c (by simp)
      rw [List.nodup_cons] at hnd
      exact hnd.1 (by rw [hb, ← hc]; exact List.mem_cons_self c tl)

theorem geneInfoOfList_keys_mem (id : String) (fs : List Feature) (s : String) :
    s ∈ (geneInfoOfList id fs).typeMap.map Prod.fst
      ↔ fs.any (fun f => f.type == s) = true := by
  rw [← assocFind_isSome_iff, geneInfoOfList_lookup]
  by_cases he : (typeIndices fs s).isEmpty
  · have h0 : fs.any (fun f => f.type == s) = false := by
      rw [← typeIndices_eq_nil_iff]
      simpa [List.isEmpty_iff] using he
    simp [he, h0]
  · have hne : ¬ typeIndices fs s = [] := by simpa [List.isEmpty_iff] using he
    have h1 : fs.any (fun f => f.type == s) = true := by
      by_contra hc
      have h0 : fs.any (fun f => f.type == s) = false := by
        simpa using hc
      exact hne ((typeIndices_eq_nil_iff fs s).mpr h0)
    simp [he, h1]

/-- The key intersection computed by `GeneInfo.gene` is, up to permutation,
the specification's intersection enumerated over the gene-defining set. -/
theorem geneDef_perm (id : String) (fs : List Feature) :
    List.Perm
      (((geneInfoOfList id fs).typeMap.map Prod.fst).filter
        (fun s => defaultGeneDefinitions.contains s))
      (defaultGeneDefinitions.filter (fun s => fs.any (fun f => f.type == s))) := by
  apply (List.perm_ext_iff_of_nodup
    ((geneInfoOfList_keys_nodup id fs).filter _)
    ((by decide : defaultGeneDefinitions.Nodup).filter _)).mpr
  intro s
  simp only [List.mem_filter]
  constructor
  · rintro ⟨hmem, hdef⟩
    exact ⟨by simpa using hdef, (geneInfoOfList_keys_mem id fs s).mp hmem⟩
  · rintro ⟨hdef, hany⟩
    exact ⟨(geneInfoOfList_keys_mem id fs s).mpr hany, by simpa using hdef⟩

/-- `_checkGeneFeature` (three singleton-set tests) agrees with the
specification's "all occurrences share the same (start, end, strand)
triple" test, whenever the indices enumerate the occurrence list. -/
theorem checkGeneFeature_eq_all (g : GeneInfo) (idxs : List Nat) (f0 : Feature)
    (os : List Feature)
    (hmap : idxs.map (fun i => g.featList.getD i default) = f0 :: os) :
    g.checkGeneFeature idxs
      = (f0 :: os).all (fun f =>
          f.start == f0.start && f.stop == f0.stop && f.strand == f0.strand) := by
  unfold GeneInfo.checkGeneFeature
  have hstart : idxs.map (fun i => (g.featList.getD i default).start)
      = f0.start :: os.map Feature.start := by
    have : idxs.map (fun i => (g.featList.getD i default).start)
        = (idxs.map (fun i => g.featList.getD i default)).map Feature.start := by
      rw [List.map_map]; rfl
    rw [this, hmap]; rfl
  have hstop : idxs.map (fun i => (g.featList.getD i default).stop)
      = f0.stop :: os.map Feature.stop := by
    have : idxs.map (fun i => (g.featList.getD i default).stop)
        = (idxs.map (fun i => g.featList.getD i default)).map Feature.stop := by
      rw [List.map_map]; rfl
    rw [this, hmap]; rfl
  have hstrand : idxs.map (fun i => (g.featList.getD i default).strand)
      = f0.strand :: os.map Feature.strand := by
    have : idxs.map (fun i => (g.featList.getD i default).strand)
        = (idxs.map (fun i => g.featList.getD i default)).map Feature.strand := by
      rw [List.map_map]; rfl
    rw [this, hmap]; rfl
  rw [hstart, hstop, hstrand, Bool.eq_iff_iff]
  simp only [Bool.and_eq_true, beq_iff_eq, List.all_eq_true, dedup_length_one_iff]
  constructor
  · rintro ⟨⟨hs, he⟩, hst⟩ f hf
    rcases List.mem_cons.mp hf with rfl | hf'
    · exact ⟨⟨rfl, rfl⟩, rfl⟩
    · exact ⟨⟨hs _ (List.mem_cons_of_mem _ (List.mem_map_of_mem _ hf')),
        he _ (List.mem_cons_of_mem _ (List.mem_map_of_mem _ hf'))⟩,
        hst _ (List.mem_cons_of_mem _ (List.mem_map_of_mem _ hf'))⟩
  · intro h
    refine ⟨⟨?_, ?_⟩, ?_⟩ <;> intro x hx <;>
      rcases List.mem_cons.mp hx with rfl | hx'
    · rfl
    · obtain ⟨f, hf, rfl⟩ := List.mem_map.mp hx'
      exact ((h f (List.mem_cons_of_mem _ hf)).1).1
    · rfl
    · obtain ⟨f, hf, rfl⟩ := List.mem_map.mp hx'
      exact ((h f (List.mem_cons_of_mem _ hf)).1).2
    · rfl
    · obtain ⟨f, hf, rfl⟩ := List.mem_map.mp hx'
      exact (h f (List.mem_cons_of_mem _ hf)).2

/-- C3: `GeneInfo.gene` implements exactly the canonical-gene resolution
contract (`geneResolveSpec`): `none` when the intersection of the types
present with the gene-defining set is empty or has more than one element;
the unique occurrence when the single gene-defining type occurs once; the
first occurrence when it occurs several times with identical
`(start, end, strand)` triples; `none` when the triples differ. -/
theorem c3_gene_resolution (id : String) (fs : List Feature) :
    (geneInfoOfList id fs).gene = geneResolveSpec fs := by
  have hfeat := geneInfoOfList_featList id fs
  have hdefs := geneInfoOfList_geneDefs id fs
  have hperm := geneDef_perm id fs
  rcases hp : defaultGeneDefinitions.filter (fun s => fs.any (fun f => f.type == s)) with
    _ | ⟨t, _ | ⟨t2, rest⟩⟩
  · rw [hp] at hperm
    have hgd : ((geneInfoOfList id fs).typeMap.map Prod.fst).filter
        (fun s => defaultGeneDefinitions.contains s) = [] := hperm.eq_nil
    simp only [GeneInfo.gene, geneResolveSpec]
    rw [hdefs, hgd, hp]
    simp
  · rw [hp] at hperm
    have hgd : ((geneInfoOfList id fs).typeMap.map Prod.fst).filter
        (fun s => defaultGeneDefinitions.contains s) = [t] :=
      List.perm_singleton.mp hperm
    have htmem : t ∈ defaultGeneDefinitions.filter
        (fun s => fs.any (fun f => f.type == s)) := by
      rw [hp]; exact List.mem_singleton_self t
    have htany : fs.any (fun f => f.type == t) = true := (List.mem_filter.mp htmem).2
    have hne : typeIndices fs t ≠ [] := by
      intro hc
      rw [typeIndices_eq_nil_iff, htany] at hc
      cases hc
    obtain ⟨i0, is, his⟩ : ∃ i0 is, typeIndices fs t = i0 :: is := by
      cases h : typeIndices fs t with
      | nil => exact absurd h hne
      | cons a as => exact ⟨a, as, rfl⟩
    have hlookup : assocFind (geneInfoOfList id fs).typeMap t
        = some (typeIndices fs t) := by
      rw [geneInfoOfList_lookup]
      have hie : (typeIndices fs t).isEmpty = false := by rw [his]; rfl
      simp [hie]
    have hoccshape : fs.filter (fun f => f.type == t)
        = fs.getD i0 default :: is.map (fun i => fs.getD i default) := by
      rw [← typeIndices_map_getD fs t, his]
      rfl
    have hmap2 : (i0 :: is).map (fun i => (geneInfoOfList id fs).featList.getD i default)
        = fs.getD i0 default :: is.map (fun i => fs.getD i default) := by
      rw [hfeat, ← his, typeIndices_map_getD fs t, hoccshape]
    simp only [GeneInfo.gene, geneResolveSpec]
    rw [hdefs, hgd, hp, hfeat]
    simp only [List.headD_cons, hlookup, his, Option.getD_some]
    rw [hoccshape, checkGeneFeature_eq_all _ _ _ _ hmap2]
    simp [List.length_cons, List.length_map]
  · rw [hp] at hperm
    have hlen2 : (((geneInfoOfList id fs).typeMap.map Prod.fst).filter
        (fun s => defaultGeneDefinitions.contains s)).length = rest.length + 2 :=
      hperm.length_eq
    simp only [GeneInfo.gene, geneResolveSpec]
    rw [hdefs, hlen2, hp]
    simp

/-- Witness for C3 at a concrete duplicated-gene input: two `gene` features
with identical coordinates and an exon; resolution returns the first
occurrence in both the code and the specification contract. -/
theorem c3_gene_resolution_witness :
    (geneInfoOfList "g1"
        [⟨"gene", 5, 10, "+", []⟩, ⟨"gene", 5, 10, "+", []⟩, ⟨"exon", 5, 7, "+", []⟩]).gene
      = geneResolveSpec
        [⟨"gene", 5, 10, "+", []⟩, ⟨"gene", 5, 10, "+", []⟩, ⟨"exon", 5, 7, "+", []⟩] :=
  c3_gene_resolution "g1"
    [⟨"gene", 5, 10, "+", []⟩, ⟨"gene", 5, 10, "+", []⟩, ⟨"exon", 5, 7, "+", []⟩]

/-- C8: the summary writer emits one `track chr` line per chromosome
followed by one `track type` line per gene type, in first-seen order.
First conjunct: the claim's example — genes on chr1 (length 120) and chr2
(length 80), both of type protein_coding, give exactly the three trailer
lines, the type bucket holding the sum 200.  Second conjunct: keys emitted
in first-seen order, not sorted ("chr2" before "chr1"). -/
theorem c8_summary_trailer :
    (writeSummaryLines
        ((GeneLengthSummary.empty.add "chr1" "protein_coding" 120).add
          "chr2" "protein_coding" 80)
      = ["track chr chr1 120", "track chr chr2 80", "track type protein_coding 200"]) ∧
      (writeSummaryLines
          ((GeneLengthSummary.empty.add "chr2" "tRNA" 5).add "chr1" "gene" 7)
        = ["track chr chr2 5", "track chr chr1 7", "track type tRNA 5", "track type gene 7"]) := by
  constructor <;> rfl
